import Mathlib

/-!
Verification of the token cache / validity engine (`src/lmsIntegration.js`) and
the process supervisor / readiness gate (`src/index.js`) of n8n-desktop.

The JavaScript source is shallowly embedded: JSON values are the inductive
`Json`; `JSON.parse` / `JSON.stringify(·, null, 2)` are modelled by the
executable `jsonParse` / `jsonStringify` below; filesystem state is the cache
file's contents (`Option String`); `Date.now()` is an explicit `now : Int`
parameter (milliseconds); the network is an oracle parameter.  Modelling
notes on platform primitives:
* JSON numbers are modelled as integers (every numeric field in the cache
  schema and in token claims is an integral Unix timestamp or millisecond
  count); fractional literals and `\u` string escapes are outside the model.
* Node's lenient base64 decoder never fails; it is modelled by dropping
  characters outside the alphabet and converting 6-bit groups to bytes.
* `Buffer.toString` with utf8 is modelled for ASCII bytes; bytes at or above
  128 map to the replacement character.
-/

namespace N8nDesktop

/-- JSON values, as produced by `JSON.parse`.  Object member order is kept,
duplicate keys are kept in parse order and resolved by `getField` taking the
last occurrence, as `JSON.parse` does. -/
inductive Json where
  | null
  | bool (b : Bool)
  | num (n : Int)
  | str (s : String)
  | arr (items : List Json)
  | obj (fields : List (String × Json))

/-- JavaScript truthiness of a JSON value: `null`, `false`, `0` and the empty
string are falsy; every array and object is truthy. -/
def truthy : Json → Bool
  | .null => false
  | .bool b => b
  | .num n => n != 0
  | .str s => s != ""
  | .arr _ => true
  | .obj _ => true

/-- Truthiness of a possibly-undefined value (`none` models `undefined`). -/
def truthyOpt : Option Json → Bool
  | none => false
  | some j => truthy j

/-- Property access `j.k`: `undefined` (`none`) unless `j` is an object with
the field; the last occurrence wins, matching `JSON.parse` duplicate-key
semantics. -/
def getField (j : Json) (k : String) : Option Json :=
  match j with
  | .obj fs => fs.reverse.lookup k
  | _ => none

/-- JavaScript `ToNumber` on primitive values; `none` models `NaN`.
Arrays and objects (whose coercion goes through string conversion and is
never exercised by the cache schema) are modelled as `NaN`. -/
def toNumber (j : Json) : Option Int :=
  match j with
  | .null => some 0
  | .bool b => some (if b then 1 else 0)
  | .num n => some n
  | .str s =>
    let t := s.data.filter (fun c => !(c = ' ' || c = '\n' || c = '\t' || c = '\r'))
    if t.isEmpty then some 0
    else if t.all Char.isDigit then
      some (Int.ofNat (t.foldl (fun a c => a * 10 + (c.toNat - 48)) 0))
    else
      match t with
      | '-' :: rest =>
        if !rest.isEmpty && rest.all Char.isDigit then
          some (-(Int.ofNat (rest.foldl (fun a c => a * 10 + (c.toNat - 48)) 0)))
        else none
      | _ => none
  | .arr _ => none
  | .obj _ => none

/-! ### JSON parser (model of `JSON.parse`) -/

def openBrace : Char := Char.ofNat 123
def closeBrace : Char := Char.ofNat 125

def isWs (c : Char) : Bool := c = ' ' || c = '\n' || c = '\t' || c = '\r'

def skipWs : List Char → List Char
  | [] => []
  | c :: cs => if isWs c then skipWs cs else c :: cs

/-- Unescape a single-character JSON escape; `\u` escapes are outside the
model. -/
def unescape (c : Char) : Option Char :=
  if c = '"' then some '"'
  else if c = '\\' then some '\\'
  else if c = '/' then some '/'
  else if c = 'n' then some '\n'
  else if c = 't' then some '\t'
  else if c = 'r' then some '\r'
  else if c = 'b' then some (Char.ofNat 8)
  else if c = 'f' then some (Char.ofNat 12)
  else none

mutual

/-- Parse a JSON string body after the opening quote; returns the content and
the remainder after the closing quote. -/
def parseStrBody : List Char → Option (List Char × List Char)
  | [] => none
  | c :: cs =>
    if c = '"' then some ([], cs)
    else if c = '\\' then parseStrEsc cs
    else if c.toNat < 32 then none
    else (parseStrBody cs).map (fun p => (c :: p.1, p.2))

/-- Continue a string body right after a backslash. -/
def parseStrEsc : List Char → Option (List Char × List Char)
  | [] => none
  | e :: cs2 =>
    match unescape e with
    | some u => (parseStrBody cs2).map (fun p => (u :: p.1, p.2))
    | none => none

end

/-- Consume a maximal run of decimal digits, accumulating their value. -/
def parseDigits (acc : Nat) : List Char → Nat × List Char
  | [] => (acc, [])
  | c :: cs =>
    if c.isDigit then parseDigits (acc * 10 + (c.toNat - 48)) cs
    else (acc, c :: cs)

/-- Parse a JSON number (integral; see the module comment). -/
def parseNum : List Char → Option (Int × List Char)
  | [] => none
  | c :: cs =>
    if c = '-' then
      match cs.head? with
      | none => none
      | some c2 =>
        if c2.isDigit then
          let p := parseDigits 0 cs
          some (-(Int.ofNat p.1), p.2)
        else none
    else if c.isDigit then
      let p := parseDigits 0 (c :: cs)
      some (Int.ofNat p.1, p.2)
    else none

mutual

/-- Parse one JSON value (fuelled recursive descent). -/
def parseVal : Nat → List Char → Option (Json × List Char)
  | 0, _ => none
  | fuel + 1, cs =>
    match skipWs cs with
    | [] => none
    | c :: cs2 =>
      if c = '"' then
        (parseStrBody cs2).map (fun p => (Json.str (String.mk p.1), p.2))
      else if c = 't' then
        match cs2 with
        | 'r' :: 'u' :: 'e' :: r => some (Json.bool true, r)
        | _ => none
      else if c = 'f' then
        match cs2 with
        | 'a' :: 'l' :: 's' :: 'e' :: r => some (Json.bool false, r)
        | _ => none
      else if c = 'n' then
        match cs2 with
        | 'u' :: 'l' :: 'l' :: r => some (Json.null, r)
        | _ => none
      else if c = openBrace then parseObjMembers fuel cs2
      else if c = '[' then parseArrItems fuel cs2
      else (parseNum (c :: cs2)).map (fun p => (Json.num p.1, p.2))

/-- Parse the members of an object after the opening brace: either an
immediate closing brace, or one `"key": value` member followed by a comma
and further members (a comma must be followed by another member, as
`JSON.parse` rejects trailing commas) or by the closing brace. -/
def parseObjMembers : Nat → List Char → Option (Json × List Char)
  | 0, _ => none
  | fuel + 1, cs =>
    match skipWs cs with
    | [] => none
    | c :: cs2 =>
      if c = closeBrace then some (Json.obj [], cs2)
      else if c = '"' then
        match parseStrBody cs2 with
        | none => none
        | some (k, r1) =>
          match skipWs r1 with
          | ':' :: r2 =>
            match parseVal fuel r2 with
            | none => none
            | some (v, r3) =>
              match skipWs r3 with
              | ',' :: r4 =>
                match parseObjMembers fuel r4 with
                | some (Json.obj [], _) => none
                | some (Json.obj ms, rr) => some (Json.obj ((String.mk k, v) :: ms), rr)
                | _ => none
              | c2 :: r4 =>
                if c2 = closeBrace then some (Json.obj [(String.mk k, v)], r4) else none
              | [] => none
          | _ => none
      else none

/-- Parse the items of an array after the opening bracket (same comma
discipline as objects). -/
def parseArrItems : Nat → List Char → Option (Json × List Char)
  | 0, _ => none
  | fuel + 1, cs =>
    match skipWs cs with
    | [] => none
    | c :: cs2 =>
      if c = ']' then some (Json.arr [], cs2)
      else
        match parseVal fuel cs with
        | none => none
        | some (v, r) =>
          match skipWs r with
          | ',' :: r2 =>
            match parseArrItems fuel r2 with
            | some (Json.arr [], _) => none
            | some (Json.arr vs, rr) => some (Json.arr (v :: vs), rr)
            | _ => none
          | ']' :: r2 => some (Json.arr [v], r2)
          | _ => none

end

/-- Model of `JSON.parse`: parse one value and require only whitespace after
it; any failure is the thrown-and-caught `SyntaxError`, i.e. `none`. -/
def jsonParse (s : String) : Option Json :=
  match parseVal (s.data.length + 1) s.data with
  | some (j, r) => if skipWs r = [] then some j else none
  | none => none

/-! ### JSON printer (model of `JSON.stringify(·, null, 2)`) -/

def hexDigit (n : Nat) : Char :=
  if n < 10 then Char.ofNat (48 + n) else Char.ofNat (87 + n)

/-- Escape one character as `JSON.stringify` does. -/
def escChar (c : Char) : List Char :=
  if c = '"' then ['\\', '"']
  else if c = '\\' then ['\\', '\\']
  else if c = '\n' then ['\\', 'n']
  else if c = '\t' then ['\\', 't']
  else if c = '\r' then ['\\', 'r']
  else if c = Char.ofNat 8 then ['\\', 'b']
  else if c = Char.ofNat 12 then ['\\', 'f']
  else if c.toNat < 32 then
    ['\\', 'u', '0', '0', hexDigit (c.toNat / 16), hexDigit (c.toNat % 16)]
  else [c]

def escStr (cs : List Char) : List Char := (cs.map escChar).flatten

/-- Decimal digits of a natural number, most significant first. -/
def natDigits (n : Nat) : List Char :=
  if h : n < 10 then [Char.ofNat (48 + n)]
  else natDigits (n / 10) ++ [Char.ofNat (48 + n % 10)]
decreasing_by
  exact Nat.div_lt_self (by omega) (by omega)

/-- Decimal rendering of an integer, as `JSON.stringify` prints it. -/
def intChars (n : Int) : List Char :=
  if n < 0 then '-' :: natDigits n.natAbs else natDigits n.natAbs

mutual

/-- Print a JSON value at the given indentation, following
`JSON.stringify(value, null, 2)`. -/
def printValAt (ind : List Char) : Json → List Char
  | .null => 'n' :: 'u' :: 'l' :: 'l' :: []
  | .bool true => 't' :: 'r' :: 'u' :: 'e' :: []
  | .bool false => 'f' :: 'a' :: 'l' :: 's' :: 'e' :: []
  | .num n => intChars n
  | .str s => '"' :: (escStr s.data ++ ['"'])
  | .arr [] => ['[', ']']
  | .arr (v :: vs) =>
    '[' :: '\n' :: (printItems (ind ++ [' ', ' ']) v vs ++
      ('\n' :: (ind ++ [']'])))
  | .obj [] => [openBrace, closeBrace]
  | .obj (kv :: ms) =>
    openBrace :: '\n' :: (printMembers (ind ++ [' ', ' ']) kv ms ++
      ('\n' :: (ind ++ [closeBrace])))
termination_by j => sizeOf j
decreasing_by
  all_goals simp

/-- Print a nonempty run of object members separated by `,\n`. -/
def printMembers (ind : List Char) : (String × Json) → List (String × Json) → List Char
  | (k, v), [] =>
    ind ++ ('"' :: (escStr k.data ++ ('"' :: ':' :: ' ' :: printValAt ind v)))
  | (k, v), kv2 :: ms =>
    (ind ++ ('"' :: (escStr k.data ++ ('"' :: ':' :: ' ' :: printValAt ind v)))) ++
      (',' :: '\n' :: printMembers ind kv2 ms)
termination_by kv ms => 1 + sizeOf kv + sizeOf ms
decreasing_by
  all_goals simp
  all_goals omega

/-- Print a nonempty run of array items separated by `,\n`. -/
def printItems (ind : List Char) : Json → List Json → List Char
  | v, [] => ind ++ printValAt ind v
  | v, v2 :: vs => (ind ++ printValAt ind v) ++ (',' :: '\n' :: printItems ind v2 vs)
termination_by v vs => 1 + sizeOf v + sizeOf vs
decreasing_by
  all_goals simp
  all_goals omega

end

/-- Model of `JSON.stringify(j, null, 2)`. -/
def jsonStringify (j : Json) : String := String.mk (printValAt [] j)

/-! ### Base64url (`base64UrlDecode` of `src/lmsIntegration.js`) -/

/-- Value of one base64 alphabet character; `none` for characters Node's
lenient decoder skips. -/
def b64Val (c : Char) : Option Nat :=
  if 65 ≤ c.toNat ∧ c.toNat ≤ 90 then some (c.toNat - 65)
  else if 97 ≤ c.toNat ∧ c.toNat ≤ 122 then some (c.toNat - 97 + 26)
  else if 48 ≤ c.toNat ∧ c.toNat ≤ 57 then some (c.toNat - 48 + 52)
  else if c = '+' then some 62
  else if c = '/' then some 63
  else none

/-- Reassemble 6-bit groups into bytes; a leftover of one sextet yields no
byte, of two or three sextets one or two bytes, as Node does. -/
def sextetsToBytes : List Nat → List Nat
  | a :: b :: c :: d :: rest =>
    (a * 4 + b / 16) :: ((b % 16) * 16 + c / 4) :: ((c % 4) * 64 + d) ::
      sextetsToBytes rest
  | [a, b] => [a * 4 + b / 16]
  | [a, b, c] => [a * 4 + b / 16, (b % 16) * 16 + c / 4]
  | _ => []

/-- `Buffer.toString` with utf8, for the ASCII bytes the token segments carry;
bytes at or above 128 map to the replacement character. -/
def asciiChar (n : Nat) : Char :=
  if n < 128 then Char.ofNat n else Char.ofNat 0xFFFD

/-- `base64UrlDecode(str)`: map `-` to `+` and `_` to `/`, pad with `=` to a
multiple of four, then decode.  Like Node's decoder it never fails. -/
def base64UrlDecode (s : String) : String :=
  let base64 := s.data.map (fun c => if c = '-' then '+' else if c = '_' then '/' else c)
  let padded := base64 ++ List.replicate ((4 - base64.length % 4) % 4) '='
  String.mk ((sextetsToBytes (padded.filterMap b64Val)).map asciiChar)

/-- Base64url encoder (test-input construction helper, not part of the
source model). -/
def b64Char (n : Nat) : Char :=
  if n < 26 then Char.ofNat (65 + n)
  else if n < 52 then Char.ofNat (97 + n - 26)
  else if n < 62 then Char.ofNat (48 + n - 52)
  else if n = 62 then '-'
  else '_'

/-- Bytes to 6-bit groups (helper for `base64UrlEncode`). -/
def bytesToSextets : List Nat → List Nat
  | b1 :: b2 :: b3 :: rest =>
    (b1 / 4) :: ((b1 % 4) * 16 + b2 / 16) :: ((b2 % 16) * 4 + b3 / 64) :: (b3 % 64) ::
      bytesToSextets rest
  | [b1, b2] => [b1 / 4, (b1 % 4) * 16 + b2 / 16, (b2 % 16) * 4]
  | [b1] => [b1 / 4, (b1 % 4) * 16]
  | [] => []

/-- Unpadded base64url encoding of an ASCII string (test-input helper). -/
def base64UrlEncode (s : String) : String :=
  String.mk ((bytesToSextets (s.data.map Char.toNat)).map b64Char)

/-! ### Credential decoder (`decodeJWT`, `getTokenExpiration`, `isJWTExpired`) -/

/-- The transient decoded credential: header, payload, raw signature part. -/
structure DecodedJWT where
  header : Json
  payload : Json
  signature : String

/-- Split a character list at every `.`, keeping empty segments, as the
JavaScript `token.split(".")` does. -/
def splitOnDot : List Char → List (List Char)
  | [] => [[]]
  | c :: cs =>
    if c = '.' then [] :: splitOnDot cs
    else
      match splitOnDot cs with
      | s :: ss => (c :: s) :: ss
      | [] => [[c]]

/-- Model of `token.split(".")`. -/
def jsSplitDot (s : String) : List String := (splitOnDot s.data).map String.mk

/-- `decodeJWT(token)`: `null` on a falsy token, on a token that does not
split on `.` into exactly three segments, or when either of the first two
segments fails to parse after base64url decoding; the try/catch converts
every failure into `null`. -/
def decodeJWT (token : String) : Option DecodedJWT :=
  if token = "" then none
  else
    match jsSplitDot token with
    | [p0, p1, p2] =>
      match jsonParse (base64UrlDecode p0), jsonParse (base64UrlDecode p1) with
      | some header, some payload => some ⟨header, payload, p2⟩
      | _, _ => none
    | _ => none

/-- `decodeJWT` applied to an arbitrary (possibly undefined, possibly
non-string) value: the falsy guard rejects falsy values and `token.split`
throws (and is caught) on truthy non-strings. -/
def decodeJWTVal : Option Json → Option DecodedJWT
  | some (Json.str s) => decodeJWT s
  | _ => none

/-- `getTokenExpiration(jwt)`: the decoded payload's truthy `exp` claim
converted to milliseconds, else `null` (`none`).  A truthy non-numeric `exp`
(which the source would coerce) is outside the model. -/
def getTokenExpiration (jwt : Option Json) : Option Int :=
  match decodeJWTVal jwt with
  | some d =>
    match getField d.payload "exp" with
    | some (Json.num e) => if e != 0 then some (e * 1000) else none
    | _ => none
  | none => none

/-- `isJWTExpired(token)` at current time `nowMs` (milliseconds):
`currentTime` is `Math.floor(Date.now() / 1000)` and the comparison in the
source is the strict `decoded.payload.exp < currentTime`. -/
def isJWTExpired (token : String) (nowMs : Int) : Bool :=
  match decodeJWT token with
  | none => true
  | some d =>
    let e := getField d.payload "exp"
    if !truthyOpt e then true
    else
      match e with
      | some j =>
        match toNumber j with
        | some v => decide (v < Int.fdiv nowMs 1000)
        | none => false
      | none => true

/-! ### Token validity policy (`isCachedTokenValid`) -/

/-- `now >= e - buf` for a JSON-valued `expiresAt`; a `NaN` comparison is
false. -/
def jsGeMinus (now : Int) (e : Option Json) (buf : Int) : Bool :=
  match e with
  | some j =>
    match toNumber j with
    | some v => decide (now ≥ v - buf)
    | none => false
  | none => false

/-- The fixed five-minute soft pre-expiry buffer, in milliseconds. -/
def bufferTime : Int := 5 * 60 * 1000

/-- `isCachedTokenValid(cachedToken)` at time `now` (both `Date.now()` reads
of the source are modelled as the same instant).  False on a missing record
or falsy `jwt`; false when `expiresAt` is truthy and `now` has reached it,
or has reached it minus the buffer; false when the token fails structural
decode; true otherwise. -/
def isCachedTokenValid (cachedToken : Option Json) (now : Int) : Bool :=
  match cachedToken with
  | none => false
  | some ct =>
    let jwt := getField ct "jwt"
    if !truthyOpt jwt then false
    else
      let ea := getField ct "expiresAt"
      if truthyOpt ea && jsGeMinus now ea 0 then false
      else if truthyOpt ea && jsGeMinus now ea bufferTime then false
      else
        match decodeJWTVal jwt with
        | none => false
        | some _ => true

/-! ### Token cache store -/

/-- `clearTokenCache()`: delete the cache file if it exists; never fails. -/
def clearTokenCache (_file : Option String) : Option String := none

/-- `loadTokenFromCache()` over the cache-file contents: returns the loaded
record and the resulting file state.  A file that fails to parse triggers the
catch branch: `clearTokenCache()` and `null` — no exception escapes. -/
def loadTokenFromCache (file : Option String) : Option Json × Option String :=
  match file with
  | none => (none, none)
  | some s =>
    match jsonParse s with
    | some j => (some j, some s)
    | none => (none, clearTokenCache (some s))

/-- The `cacheData` object literal built by `saveTokenToCache`: fields copied
from `tokenData`, `cachedAt` from `Date.now()`, `expiresAt` derived from the
token.  `JSON.stringify` drops members whose value is `undefined` and keeps
`null`. -/
def cacheDataJson (tokenData : Json) (now : Int) : Json :=
  Json.obj (([
    ("jwt", getField tokenData "jwt"),
    ("isNIEUser", getField tokenData "isNIEUser"),
    ("isLDAPEnabled", getField tokenData "isLDAPEnabled"),
    ("hasGroupAccess", getField tokenData "hasGroupAccess"),
    ("key", getField tokenData "key"),
    ("cachedAt", some (Json.num now)),
    ("expiresAt", some (match getTokenExpiration (getField tokenData "jwt") with
      | some e => Json.num e
      | none => Json.null))
  ] : List (String × Option Json)).filterMap
    (fun kv => kv.2.map (fun v => (kv.1, v))))

/-- `saveTokenToCache(tokenData)`: write the stringified `cacheData` over the
cache file and report success (the model's filesystem is reliable; an I/O
error would be caught and reported as `false`). -/
def saveTokenToCache (tokenData : Json) (now : Int) (_file : Option String) :
    Bool × Option String :=
  (true, some (jsonStringify (cacheDataJson tokenData now)))

/-! ### Access gate (`getValidToken`, `initialize`) -/

/-- `getValidToken(bearerToken)`: load the cache; reuse a valid record with
no network call; otherwise call `performSSOLogin` exactly once (its outcome
is the oracle `sso`), persisting a successful result before returning it.
Returns the record (or `null`), the cache-file state, and the number of
acquisition calls made. -/
def getValidToken (sso : Option Json) (now : Int) (file : Option String) :
    Option Json × Option String × Nat :=
  let loaded := loadTokenFromCache file
  if isCachedTokenValid loaded.1 now then (loaded.1, loaded.2, 0)
  else
    match sso with
    | some tokenData => (some tokenData, (saveTokenToCache tokenData now loaded.2).2, 1)
    | none => (none, loaded.2, 1)

/-- How a call to `initialize` ends: a `process.exit(code)`, a normal boolean
return, or an exception propagating to the caller. -/
inductive InitOutcome where
  | exited (code : Nat)
  | returned (b : Bool)
  | threw

/-- `initialize(bearerToken, exitOnFailure)`.  The source's fatal paths call
`this.exitProcess(code)`, but no `exitProcess` method is defined anywhere on
the class, so each such call raises a TypeError: the empty-token path throws
it straight out of `initialize`, and on the in-`try` paths the catch block's
own `exitProcess(4)` call throws out of the catch.  The outcome is therefore
`threw`, never `exited`.  Returns the outcome, the cache-file state, and the
number of acquisition calls. -/
def initLMS (bearerToken : String) (exitOnFailure : Bool)
    (sso : Option Json) (now : Int) (file : Option String) :
    InitOutcome × Option String × Nat :=
  if bearerToken = "" then
    if exitOnFailure then (InitOutcome.threw, file, 0)
    else (InitOutcome.returned false, file, 0)
  else
    let r := getValidToken sso now file
    match r.1 with
    | some tokenData =>
      if !(truthyOpt (getField tokenData "hasGroupAccess") ||
           truthyOpt (getField tokenData "isNIEUser") ||
           truthyOpt (getField tokenData "isLDAPEnabled")) then
        if exitOnFailure then (InitOutcome.threw, r.2.1, r.2.2)
        else (InitOutcome.returned true, r.2.1, r.2.2)
      else (InitOutcome.returned true, r.2.1, r.2.2)
    | none =>
      if exitOnFailure then (InitOutcome.threw, r.2.1, r.2.2)
      else (InitOutcome.returned false, r.2.1, r.2.2)

/-! ### Process supervisor mode selection (`src/index.js`) -/

/-- `shouldInit = !bgEnabled || !portInUse`. -/
def shouldInit (bgEnabled portInUse : Bool) : Bool := !bgEnabled || !portInUse

/-- Whether `main` attempts a child launch: in dev mode only on macOS or
Windows, in prod mode unconditionally — in both cases only when
`shouldInit`. -/
def launchAttempted (isDev isMac isWin bgEnabled portInUse : Bool) : Bool :=
  (isDev && shouldInit bgEnabled portInUse && (isMac || isWin)) ||
    (!isDev && shouldInit bgEnabled portInUse)

/-! ### Readiness gate (`waitForUrls`) -/

/-- The default polling interval of `waitForUrls`, in milliseconds. -/
def defaultInterval : Nat := 250

/-- First polling attempt (counting from `k`) at which the response oracle
returns status 200, scanning at most `fuel` attempts.  The oracle maps an
attempt index to `none` (transport error, swallowed) or `some status`; only
200 stops the loop. -/
def firstReadyAux (resp : Nat → Option Nat) : Nat → Nat → Option Nat
  | _, 0 => none
  | k, fuel + 1 => if resp k = some 200 then some k else firstReadyAux resp (k + 1) fuel

/-- First attempt at which a URL's poll loop observes status 200. -/
def firstReady (resp : Nat → Option Nat) (fuel : Nat) : Option Nat :=
  firstReadyAux resp 0 fuel

/-- `waitForUrls`: every URL is polled independently; attempt `k` of a URL
happens after `k` sleeps of `interval` ms; the whole wait (`Promise.all`)
resolves at the time the last URL becomes ready, and not at all (within
`fuel`) if any URL never reaches 200. -/
def waitForUrls (resps : List (Nat → Option Nat)) (interval fuel : Nat) : Option Nat :=
  if resps.all (fun r => (firstReady r fuel).isSome) then
    some ((resps.map (fun r => interval * (firstReady r fuel).getD 0)).foldr max 0)
  else none

/-! ### Auxiliary predicates and concrete test data -/

/-- Character needing no JSON string escaping. -/
def safeChar (c : Char) : Bool := c ≠ '"' && c ≠ '\\' && decide (32 ≤ c.toNat)

/-- String needing no JSON string escaping, e.g. any base64url token. -/
def safeStr (s : String) : Bool := s.data.all safeChar

/-- JSON value that is a scalar and, for strings, escape-free. -/
def scalarSafe : Json → Bool
  | .null => true
  | .bool _ => true
  | .num _ => true
  | .str s => safeStr s
  | .arr _ => false
  | .obj _ => false

/-- A list of characters whose head, if any, is not a decimal digit (so a
number parse stops exactly there). -/
def nonDigitStart : List Char → Prop
  | [] => True
  | c :: _ => c.isDigit = false

/-- The condition the C6 claim states for skipping the launch: port bound
and background mode disabled (the source has no separate explicit
managed-start disable input). -/
def claimedSkip (bgEnabled portInUse : Bool) : Bool := portInUse && !bgEnabled

/-- An acquisition-response record with the given token, flags and key, as
the fields `saveTokenToCache` reads them. -/
def mkTokenData (jwt : String) (nie ldap grp : Bool) (key : String) : Json :=
  Json.obj [("jwt", Json.str jwt), ("isNIEUser", Json.bool nie),
    ("isLDAPEnabled", Json.bool ldap), ("hasGroupAccess", Json.bool grp),
    ("key", Json.str key)]

/-- A structurally valid token with header `\x7b\x7d` and payload `\x7b\x7d`
(no expiry claim): base64url of both is `e30`. -/
def tokSimple : String := "e30.e30.s"

/-- The payload text with a single `exp` claim of 5 seconds. -/
def payloadExp5 : String := "\x7b\"exp\":5\x7d"

/-- A structurally valid token whose payload is `payloadExp5`. -/
def tokExp5 : String := "e30." ++ base64UrlEncode payloadExp5 ++ ".s"

/-- Cached record whose `expiresAt` is the number 0 (non-null but JS-falsy). -/
def recExpZero : Json :=
  Json.obj [("jwt", Json.str tokSimple), ("expiresAt", Json.num 0)]

/-- Cached record expiring at t = 1000000 ms. -/
def recExpMillion : Json :=
  Json.obj [("jwt", Json.str tokSimple), ("expiresAt", Json.num 1000000)]

/-- Cached record with an explicit `null` expiry, as `saveTokenToCache`
stores for a token without an `exp` claim. -/
def recNoExpiry : Json :=
  Json.obj [("jwt", Json.str tokSimple), ("expiresAt", Json.null)]

/-- Serialized cache file holding a far-future record (the exact
two-space-indented form `save` writes). -/
def cacheStrFresh : String :=
  "\x7b\n  \"jwt\": \"e30.e30.s\",\n  \"expiresAt\": 2000000\n\x7d"

/-- An acquisition response carrying no authorization flag. -/
def respNoAccess : Json := mkTokenData tokSimple false false false "K"

/-- Readiness oracle: 200 from the first poll. -/
def respImmediate : Nat → Option Nat := fun _ => some 200

/-- Readiness oracle: 500 on the first poll, then 200. -/
def respSecondTry : Nat → Option Nat := fun k => if k = 0 then some 500 else some 200

/-! ## Helper lemmas -/

theorem firstReadyAux_spec (resp : Nat → Option Nat) :
    ∀ (fuel k m : Nat), firstReadyAux resp k fuel = some m →
      resp m = some 200 ∧ k ≤ m ∧ ∀ j, k ≤ j → j < m → resp j ≠ some 200 := by
  intro fuel
  induction fuel with
  | zero => intro k m h; simp [firstReadyAux] at h
  | succ n ih =>
    intro k m h
    rw [firstReadyAux] at h
    by_cases hk : resp k = some 200
    · rw [if_pos hk] at h
      obtain rfl : k = m := by simpa using h
      exact ⟨hk, le_refl _, fun j hj1 hj2 => absurd hj1 (by omega)⟩
    · rw [if_neg hk] at h
      obtain ⟨h200, hle, hmin⟩ := ih (k + 1) m h
      refine ⟨h200, by omega, fun j hj1 hj2 => ?_⟩
      rcases Nat.eq_or_lt_of_le hj1 with rfl | hlt
      · exact hk
      · exact hmin j hlt hj2

theorem le_foldr_max (l : List Nat) : ∀ x ∈ l, x ≤ l.foldr max 0 := by
  induction l with
  | nil => simp
  | cons a t ih =>
    intro x hx
    rcases List.mem_cons.mp hx with rfl | hx
    · exact le_max_left _ _
    · exact le_trans (ih x hx) (le_max_right _ _)

theorem decodeJWT_eq (token : String) :
    decodeJWT token =
      (match jsSplitDot token with
       | [p0, p1, p2] =>
         match jsonParse (base64UrlDecode p0), jsonParse (base64UrlDecode p1) with
         | some h, some p => some ⟨h, p, p2⟩
         | _, _ => none
       | _ => none) := by
  by_cases he : token = ""
  · subst he
    rfl
  · simp [decodeJWT, he]

theorem decodeJWT_ne_empty {t : String} {d : DecodedJWT} (h : decodeJWT t = some d) :
    t ≠ "" := by
  intro he
  subst he
  simp [decodeJWT] at h

theorem mk_data (s : String) : String.mk s.data = s := by
  cases s
  rfl

/-! Printer/parser round-trip toolkit (for the save/load round-trip claim). -/

theorem escChar_safe {c : Char} (h : safeChar c = true) : escChar c = [c] := by
  have h1 : ¬ (c = '"') := by
    intro he
    subst he
    simp [safeChar] at h
  have h2 : ¬ (c = '\\') := by
    intro he
    subst he
    simp [safeChar] at h
  have h3 : 32 ≤ c.toNat := by
    simp [safeChar, Bool.and_eq_true] at h
    exact h.2
  have hlow : ∀ x : Char, x.toNat < 32 → ¬ (c = x) := by
    intro x hx he
    subst he
    omega
  unfold escChar
  rw [if_neg h1, if_neg h2, if_neg (hlow '\n' (by decide)), if_neg (hlow '\t' (by decide)),
    if_neg (hlow '\r' (by decide)), if_neg (hlow (Char.ofNat 8) (by decide)),
    if_neg (hlow (Char.ofNat 12) (by decide)), if_neg (by omega)]

theorem escStr_safe : ∀ cs : List Char, cs.all safeChar = true → escStr cs = cs := by
  intro cs
  induction cs with
  | nil => intro _; rfl
  | cons c t ih =>
    intro h
    rw [List.all_cons, Bool.and_eq_true] at h
    simp only [escStr, List.map_cons, List.flatten_cons, escChar_safe h.1]
    have := ih h.2
    simp only [escStr] at this
    rw [this]
    rfl

theorem parseStrBody_safe : ∀ (cs r : List Char), cs.all safeChar = true →
    parseStrBody (cs ++ '"' :: r) = some (cs, r) := by
  intro cs
  induction cs with
  | nil => intro r _; rfl
  | cons c t ih =>
    intro r h
    rw [List.all_cons, Bool.and_eq_true] at h
    obtain ⟨hc, ht⟩ := h
    have h1 : ¬ (c = '"') := by
      intro he; subst he; simp [safeChar] at hc
    have h2 : ¬ (c = '\\') := by
      intro he; subst he; simp [safeChar] at hc
    have h3 : ¬ (c.toNat < 32) := by
      simp [safeChar, Bool.and_eq_true] at hc
      omega
    rw [List.cons_append]
    simp [parseStrBody, h1, h2, h3, ih r ht]

theorem digitChar_isDigit {d : Nat} (h : d < 10) : (Char.ofNat (48 + d)).isDigit = true := by
  interval_cases d <;> decide

theorem digitChar_toNat {d : Nat} (h : d < 10) : (Char.ofNat (48 + d)).toNat = 48 + d := by
  interval_cases d <;> decide

theorem isDigit_ne_of {c : Char} (h : c.isDigit = true) (x : Char)
    (hx : x.isDigit = false) : ¬ (c = x) := by
  intro he
  subst he
  rw [h] at hx
  cases hx

theorem digit_not_ws {c : Char} (h : c.isDigit = true) : isWs c = false := by
  have h1 : ¬ (c = ' ') := isDigit_ne_of h ' ' (by decide)
  have h2 : ¬ (c = '\n') := isDigit_ne_of h '\n' (by decide)
  have h3 : ¬ (c = '\t') := isDigit_ne_of h '\t' (by decide)
  have h4 : ¬ (c = '\r') := isDigit_ne_of h '\r' (by decide)
  simp [isWs, h1, h2, h3, h4]

theorem natDigits_lt {n : Nat} (h : n < 10) : natDigits n = [Char.ofNat (48 + n)] := by
  rw [natDigits]
  simp [h]

theorem natDigits_ge {n : Nat} (h : ¬ n < 10) :
    natDigits n = natDigits (n / 10) ++ [Char.ofNat (48 + n % 10)] := by
  conv_lhs => rw [natDigits]
  simp [h]

theorem natDigits_head (n : Nat) :
    ∃ c cs, natDigits n = c :: cs ∧ c.isDigit = true := by
  induction n using Nat.strong_induction_on with
  | _ n ih =>
    by_cases h : n < 10
    · exact ⟨_, _, natDigits_lt h, digitChar_isDigit h⟩
    · obtain ⟨c, cs, hrep, hdig⟩ := ih (n / 10) (Nat.div_lt_self (by omega) (by omega))
      exact ⟨c, cs ++ [Char.ofNat (48 + n % 10)], by rw [natDigits_ge h, hrep]; rfl, hdig⟩

theorem parseDigits_stop {r : List Char} (h : nonDigitStart r) (acc : Nat) :
    parseDigits acc r = (acc, r) := by
  cases r with
  | nil => rfl
  | cons c t =>
    simp only [nonDigitStart] at h
    simp [parseDigits, h]

theorem parseDigits_append (n : Nat) : ∀ (acc : Nat) (r : List Char),
    parseDigits acc (natDigits n ++ r) =
      parseDigits (acc * 10 ^ (natDigits n).length + n) r := by
  induction n using Nat.strong_induction_on with
  | _ n ih =>
    intro acc r
    by_cases h : n < 10
    · rw [natDigits_lt h]
      simp [parseDigits, digitChar_isDigit h, digitChar_toNat h]
    · rw [natDigits_ge h, List.append_assoc]
      rw [ih (n / 10) (Nat.div_lt_self (by omega) (by omega))]
      have hm : n % 10 < 10 := Nat.mod_lt _ (by omega)
      simp only [List.singleton_append, parseDigits, digitChar_isDigit hm,
        digitChar_toNat hm, if_true]
      have hlen : (natDigits (n / 10) ++ [Char.ofNat (48 + n % 10)]).length =
          (natDigits (n / 10)).length + 1 := by simp
      rw [hlen, pow_succ, ← mul_assoc]
      have harith : ∀ A : Nat, (A + n / 10) * 10 + (48 + n % 10 - 48) = A * 10 + n := by
        intro A
        omega
      rw [harith]
      simp

theorem natDigits_parse {r : List Char} (h : nonDigitStart r) (n : Nat) :
    parseDigits 0 (natDigits n ++ r) = (n, r) := by
  rw [parseDigits_append]
  simpa using parseDigits_stop h n

theorem parseNum_intChars (n : Int) {r : List Char} (h : nonDigitStart r) :
    parseNum (intChars n ++ r) = some (n, r) := by
  by_cases hn : n < 0
  · simp only [intChars, if_pos hn, List.cons_append]
    obtain ⟨c, cs, hrep, hdig⟩ := natDigits_head n.natAbs
    rw [hrep]
    have hfold : parseDigits 0 (c :: (cs ++ r)) = (n.natAbs, r) := by
      rw [show c :: (cs ++ r) = (c :: cs) ++ r by rfl, ← hrep]
      exact natDigits_parse h n.natAbs
    have habs : |n| = -n := abs_of_nonpos (le_of_lt hn)
    simp [parseNum, hdig, hfold, Int.ofNat_eq_natCast]
    omega
  · simp only [intChars, if_neg hn]
    obtain ⟨c, cs, hrep, hdig⟩ := natDigits_head n.natAbs
    rw [hrep, List.cons_append]
    have hne : ¬ (c = '-') := isDigit_ne_of hdig '-' (by decide)
    have hfold : parseDigits 0 (c :: (cs ++ r)) = (n.natAbs, r) := by
      rw [show c :: (cs ++ r) = (c :: cs) ++ r by rfl, ← hrep]
      exact natDigits_parse h n.natAbs
    have habs : |n| = n := abs_of_nonneg (by omega)
    simp [parseNum, hne, hdig, hfold, Int.ofNat_eq_natCast]
    omega

theorem skipWs_cons_not_ws {c : Char} (h : isWs c = false) (r : List Char) :
    skipWs (c :: r) = c :: r := by
  simp [skipWs, h]

theorem parseVal_scalar {v : Json} (hv : scalarSafe v = true) {r : List Char}
    (hr : nonDigitStart r) (fuel : Nat) (ind : List Char) :
    parseVal (fuel + 1) (' ' :: (printValAt ind v ++ r)) = some (v, r) := by
  cases v with
  | null => simp [printValAt, parseVal, skipWs, isWs]
  | bool b => cases b <;> simp [printValAt, parseVal, skipWs, isWs]
  | str s =>
    have hsafe : s.data.all safeChar = true := hv
    simp only [printValAt, escStr_safe s.data hsafe]
    have hshape : ' ' :: (('"' :: (s.data ++ ['"'])) ++ r) =
        ' ' :: '"' :: (s.data ++ ('"' :: r)) := by simp
    rw [hshape]
    simp [parseVal, skipWs, isWs, parseStrBody_safe s.data r hsafe, mk_data]
  | num n =>
    simp only [printValAt]
    by_cases hn : n < 0
    · have hrep : intChars n = '-' :: natDigits n.natAbs := by simp [intChars, hn]
      have hparse : parseNum ('-' :: (natDigits n.natAbs ++ r)) = some (n, r) := by
        have h0 := parseNum_intChars n (r := r) hr
        rwa [hrep, List.cons_append] at h0
      rw [hrep]
      simp [parseVal, skipWs, isWs, hparse, (show ¬('-' = openBrace) by decide)]
    · obtain ⟨c, cs, hrep, hdig⟩ := natDigits_head n.natAbs
      have hrepi : intChars n = c :: cs := by rw [intChars, if_neg hn, hrep]
      have hparse : parseNum (c :: (cs ++ r)) = some (n, r) := by
        have h0 := parseNum_intChars n (r := r) hr
        rwa [hrepi, List.cons_append] at h0
      rw [hrepi]
      simp [parseVal, skipWs, (show isWs ' ' = true by rfl), digit_not_ws hdig, hparse,
        isDigit_ne_of hdig '"' (by decide), isDigit_ne_of hdig 't' (by decide),
        isDigit_ne_of hdig 'f' (by decide), isDigit_ne_of hdig 'n' (by decide),
        isDigit_ne_of hdig openBrace (by decide), isDigit_ne_of hdig '[' (by decide)]
  | arr items => simp [scalarSafe] at hv
  | obj fields => simp [scalarSafe] at hv

theorem parseObjMembers_print :
    ∀ (ms : List (String × Json)) (kv : String × Json) (fuel : Nat) (r : List Char),
      ms.length + 1 ≤ fuel →
      safeStr kv.1 = true → scalarSafe kv.2 = true →
      (∀ p ∈ ms, safeStr p.1 = true ∧ scalarSafe p.2 = true) →
      parseObjMembers (fuel + 1)
          ('\n' :: (printMembers [' ', ' '] kv ms ++ ('\n' :: closeBrace :: r)))
        = some (Json.obj (kv :: ms), r) := by
  intro ms
  induction ms with
  | nil =>
    intro kv fuel r hfuel hk hv _
    obtain ⟨k, v⟩ := kv
    obtain ⟨g, rfl⟩ : ∃ g, fuel = g + 1 := ⟨fuel - 1, by omega⟩
    have hkd : k.data.all safeChar = true := hk
    simp only [printMembers, escStr_safe k.data hkd]
    simp [parseObjMembers, skipWs, parseStrBody_safe k.data, hkd, mk_data,
      parseVal_scalar hv (show nonDigitStart ('\n' :: closeBrace :: r) by
        simp [nonDigitStart]),
      (show isWs '\n' = true by rfl), (show isWs ' ' = true by rfl),
      (show isWs '"' = false by rfl), (show isWs ':' = false by rfl),
      (show isWs ',' = false by rfl), (show isWs closeBrace = false by decide),
      (show ¬('"' = closeBrace) by decide), (show ¬(closeBrace = ',') by decide)]
  | cons kv2 ms ih =>
    intro kv fuel r hfuel hk hv hms
    obtain ⟨k, v⟩ := kv
    obtain ⟨g, rfl⟩ : ∃ g, fuel = g + 1 := ⟨fuel - 1, by omega⟩
    have hk2 : safeStr kv2.1 = true := (hms kv2 (List.mem_cons_self _ _)).1
    have hv2 : scalarSafe kv2.2 = true := (hms kv2 (List.mem_cons_self _ _)).2
    have hms2 : ∀ p ∈ ms, safeStr p.1 = true ∧ scalarSafe p.2 = true :=
      fun p hp => hms p (List.mem_cons_of_mem _ hp)
    have hrec := ih kv2 g r (by simpa using hfuel) hk2 hv2 hms2
    have hkd : k.data.all safeChar = true := hk
    simp only [printMembers, escStr_safe k.data hkd]
    conv_lhs => rw [parseObjMembers]
    simp [skipWs, parseStrBody_safe k.data, hkd, mk_data,
      parseVal_scalar hv (show nonDigitStart (',' :: '\n' :: (printMembers [' ', ' '] kv2 ms
        ++ ('\n' :: closeBrace :: r))) by simp [nonDigitStart]),
      hrec,
      (show isWs '\n' = true by rfl), (show isWs ' ' = true by rfl),
      (show isWs '"' = false by rfl), (show isWs ':' = false by rfl),
      (show isWs ',' = false by rfl), (show isWs closeBrace = false by decide),
      (show ¬('"' = closeBrace) by decide), (show ¬(closeBrace = ',') by decide)]

theorem printMembers_length_ge :
    ∀ (ms : List (String × Json)) (ind : List Char) (kv : String × Json),
      ms.length ≤ (printMembers ind kv ms).length := by
  intro ms
  induction ms with
  | nil => intro ind kv; simp
  | cons kv2 t ih =>
    intro ind kv
    obtain ⟨k, v⟩ := kv
    have := ih ind kv2
    simp only [printMembers, List.length_append, List.length_cons, List.length_nil]
    omega

/-- Round trip: a flat object of scalar, escape-free members survives
`JSON.stringify(·, null, 2)` followed by `JSON.parse` unchanged. -/
theorem jsonParse_print_obj (kv : String × Json) (ms : List (String × Json))
    (hk : safeStr kv.1 = true) (hv : scalarSafe kv.2 = true)
    (hms : ∀ p ∈ ms, safeStr p.1 = true ∧ scalarSafe p.2 = true) :
    jsonParse (jsonStringify (Json.obj (kv :: ms))) = some (Json.obj (kv :: ms)) := by
  have hform : printValAt [] (Json.obj (kv :: ms)) =
      openBrace :: '\n' :: (printMembers [' ', ' '] kv ms ++ ('\n' :: closeBrace :: [])) := by
    simp [printValAt]
  have hlen := printMembers_length_ge ms [' ', ' '] kv
  have hrw := parseObjMembers_print ms kv ((printMembers [' ', ' '] kv ms).length + 3) []
    (by omega) hk hv hms
  unfold jsonStringify jsonParse
  rw [show (String.mk (printValAt [] (Json.obj (kv :: ms)))).data
      = printValAt [] (Json.obj (kv :: ms)) from rfl]
  rw [hform]
  have hL : (openBrace :: '\n' :: (printMembers [' ', ' '] kv ms ++
      ('\n' :: closeBrace :: []))).length + 1 =
      (((printMembers [' ', ' '] kv ms).length + 3) + 1) + 1 := by
    simp
  rw [hL]
  conv_lhs => rw [parseVal]
  simp [skipWs, (show isWs openBrace = false by decide),
    (show ¬(openBrace = '"') by decide), (show ¬(openBrace = 't') by decide),
    (show ¬(openBrace = 'f') by decide), (show ¬(openBrace = 'n') by decide),
    hrw]

end N8nDesktop

namespace N8nDesktop

/-! ## Claim theorems -/

/-- C1 (code bug evidence): on every fatal path of `initialize` with
`exitOnFailure = true` — empty bearer token, acquisition returning nothing,
and a credential with no authorization flag — the embedded `initLMS` throws
(the source calls the nonexistent `this.exitProcess`), so none of the exit
codes 1, 2, 3, 4 is ever produced; the empty-token path also makes no
network call. -/
theorem c1_exit_codes_never_produced :
    initLMS "" true none 1700000000000 none = (InitOutcome.threw, none, 0)
    ∧ (initLMS "tok" true none 1700000000000 none).1 = InitOutcome.threw
    ∧ (initLMS "tok" true none 1700000000000 none).2.2 = 1
    ∧ (initLMS "tok" true (some respNoAccess) 1700000000000 none).1 = InitOutcome.threw := by
  refine ⟨rfl, rfl, rfl, ?_⟩
  rfl

/-- C4: a cache file whose contents fail to parse is implicitly cleared by a
single `load` — the file no longer exists afterwards — and `load` returns
absent; the parse failure never escapes (the embedding is a total
function). -/
theorem c4_corrupt_cache_clears (s : String) (h : jsonParse s = none) :
    loadTokenFromCache (some s) = (none, none) := by
  simp [loadTokenFromCache, h, clearTokenCache]

/-- C4 witness: a concrete unparseable cache file. -/
theorem c4_corrupt_cache_clears_witness :
    jsonParse "corrupt" = none ∧ loadTokenFromCache (some "corrupt") = (none, none) :=
  ⟨by rfl, c4_corrupt_cache_clears "corrupt" (by rfl)⟩

/-- C6 counterexample: with background-process mode enabled and the port in
use, the source sets `shouldInit = false` (it skips the launch), but the
claim's condition — port bound AND background mode disabled — does not hold
there, so the claimed equivalence is false at this input. -/
theorem c6_counterexample :
    ¬ ((shouldInit true true = false) ↔ claimedSkip true true = true) := by
  decide

/-- C6 (amended): the supervisor skips launching (`shouldInit = false`)
exactly when the target port is already bound AND background-process mode is
ENABLED; when `shouldInit` is false no launch is attempted in either dev or
prod mode. -/
theorem c6_mode_selection :
    (∀ bg port, shouldInit bg port = false ↔ bg = true ∧ port = true)
    ∧ ∀ d m w bg port, shouldInit bg port = false →
        launchAttempted d m w bg port = false := by
  decide

/-- C6 witness: the amended equivalence and the no-launch consequence at a
concrete input. -/
theorem c6_mode_selection_witness :
    shouldInit true true = false ∧ launchAttempted true true false true true = false :=
  ⟨(c6_mode_selection.1 true true).mpr ⟨rfl, rfl⟩,
    c6_mode_selection.2 true true false true true
      ((c6_mode_selection.1 true true).mpr ⟨rfl, rfl⟩)⟩

/-- C9: the default interval is 250 ms, and whenever `waitForUrls` resolves
at time `T`, every URL in the set has some poll attempt `k` observed at
status 200, every earlier attempt of that URL was an error or a non-200
response (swallowed and retried), and the resolution does not happen before
that URL's ready time `interval * k`. -/
theorem c9_wait_for_urls :
    defaultInterval = 250 ∧
    ∀ (resps : List (Nat → Option Nat)) (interval fuel T : Nat),
      waitForUrls resps interval fuel = some T →
      ∀ r ∈ resps, ∃ k, r k = some 200 ∧ (∀ j < k, r j ≠ some 200) ∧ interval * k ≤ T := by
  refine ⟨rfl, ?_⟩
  intro resps interval fuel T h r hr
  unfold waitForUrls at h
  by_cases hall : resps.all (fun r => (firstReady r fuel).isSome)
  · rw [if_pos hall] at h
    have hsome : (firstReady r fuel).isSome := by
      have := List.all_eq_true.mp hall r hr
      simpa using this
    obtain ⟨k, hk⟩ := Option.isSome_iff_exists.mp hsome
    obtain ⟨h200, _, hmin⟩ := firstReadyAux_spec r fuel 0 k hk
    refine ⟨k, h200, fun j hj => hmin j (Nat.zero_le j) hj, ?_⟩
    have hmem : interval * k ∈ resps.map (fun r => interval * (firstReady r fuel).getD 0) := by
      refine List.mem_map.mpr ⟨r, hr, ?_⟩
      rw [hk]
      rfl
    have hle := le_foldr_max _ _ hmem
    obtain rfl := Option.some.inj h
    exact hle
  · rw [if_neg hall] at h
    exact absurd h (by simp)

/-- C9 witness: two URLs, one ready immediately, one ready on the second
poll; the wait resolves exactly one interval after the first URL alone. -/
theorem c9_wait_for_urls_witness :
    waitForUrls [respImmediate, respSecondTry] 250 5 = some 250
    ∧ ∃ k, respSecondTry k = some 200 ∧ (∀ j < k, respSecondTry j ≠ some 200) ∧ 250 * k ≤ 250 :=
  ⟨rfl, c9_wait_for_urls.2 [respImmediate, respSecondTry] 250 5 250 rfl respSecondTry
    (List.Mem.tail _ (List.Mem.head _))⟩

/-- C3: `getValidToken` first loads the cache; a record valid per the
validity policy is returned as-is with zero acquisition calls; otherwise the
Acquisition Client is invoked exactly once and, on success, the fresh record
is persisted through the cache store before being returned; on failure the
result is absent. -/
theorem c3_get_valid_token (sso : Option Json) (now : Int) (file : Option String) :
    (isCachedTokenValid (loadTokenFromCache file).1 now = true →
      getValidToken sso now file = ((loadTokenFromCache file).1, (loadTokenFromCache file).2, 0))
    ∧ (isCachedTokenValid (loadTokenFromCache file).1 now = false →
        (getValidToken sso now file).2.2 = 1
        ∧ (∀ td, sso = some td →
            getValidToken sso now file =
              (some td, (saveTokenToCache td now (loadTokenFromCache file).2).2, 1))
        ∧ (sso = none →
            getValidToken sso now file = (none, (loadTokenFromCache file).2, 1))) := by
  constructor
  · intro h
    simp [getValidToken, h]
  · intro h
    refine ⟨?_, ?_, ?_⟩
    · cases sso <;> simp [getValidToken, h]
    · intro td hsso
      subst hsso
      simp [getValidToken, h]
    · intro hsso
      subst hsso
      simp [getValidToken, h]

/-- C3 witness: a fresh cached record is reused with no acquisition call. -/
theorem c3_get_valid_token_witness :
    isCachedTokenValid (loadTokenFromCache (some cacheStrFresh)).1 1 = true
    ∧ getValidToken none 1 (some cacheStrFresh) =
        ((loadTokenFromCache (some cacheStrFresh)).1, (loadTokenFromCache (some cacheStrFresh)).2, 0) :=
  ⟨by rfl, (c3_get_valid_token none 1 (some cacheStrFresh)).1 (by rfl)⟩

/-- C7: `decode` succeeds exactly when the token splits on `.` into three
segments whose first two parse after base64url decoding, in which case the
result is the header/payload/signature triple; in every other case —
including the empty token — it yields `Invalid` (`none`), and the embedding
is a total function, so no exception escapes. -/
theorem c7_decode_invalid_never_throws (token : String) :
    ((decodeJWT token).isSome ↔
      ∃ a b c2, jsSplitDot token = [a, b, c2] ∧
        (jsonParse (base64UrlDecode a)).isSome ∧ (jsonParse (base64UrlDecode b)).isSome)
    ∧ ∀ a b c2 h p, jsSplitDot token = [a, b, c2] →
        jsonParse (base64UrlDecode a) = some h →
        jsonParse (base64UrlDecode b) = some p →
        decodeJWT token = some ⟨h, p, c2⟩ := by
  have hEq := decodeJWT_eq token
  constructor
  · constructor
    · intro hs
      rw [hEq] at hs
      rcases hsp : jsSplitDot token with _ | ⟨a, _ | ⟨b, _ | ⟨c2, _ | ⟨d, rest⟩⟩⟩⟩ <;>
        rw [hsp] at hs <;> simp only [] at hs
      case nil => simp at hs
      case cons.nil => simp at hs
      case cons.cons.nil => simp at hs
      case cons.cons.cons.cons => simp at hs
      rcases hp0 : jsonParse (base64UrlDecode a) with _ | h0 <;> rw [hp0] at hs
      · simp at hs
      · rcases hp1 : jsonParse (base64UrlDecode b) with _ | p1 <;> rw [hp1] at hs
        · simp at hs
        · exact ⟨a, b, c2, rfl, by simp [hp0], by simp [hp1]⟩
    · rintro ⟨a, b, c2, hsp, h0s, h1s⟩
      obtain ⟨h0, hh0⟩ := Option.isSome_iff_exists.mp h0s
      obtain ⟨p1, hh1⟩ := Option.isSome_iff_exists.mp h1s
      rw [hEq, hsp]
      simp [hh0, hh1]
  · intro a b c2 h p hsp hp0 hp1
    rw [hEq, hsp]
    simp [hp0, hp1]

/-- C7 witness: a concrete three-segment token decodes to its triple. -/
theorem c7_decode_invalid_never_throws_witness :
    decodeJWT tokSimple = some ⟨Json.obj [], Json.obj [], "s"⟩ :=
  (c7_decode_invalid_never_throws tokSimple).2 "e30" "e30" "s" (Json.obj []) (Json.obj [])
    (by rfl) (by rfl) (by rfl)

/-- C5 counterexample: a token whose `exp` claim equals the current second
(`exp = 5`, current time 5000 ms, so `currentTime = 5`) is reported NOT
expired — the source compares with strict `<`, while the claim says
`expiry ≤ current time` is expired. -/
theorem c5_counterexample :
    decodeJWT tokExp5 = some ⟨Json.obj [], Json.obj [("exp", Json.num 5)], "s"⟩
    ∧ Int.fdiv 5000 1000 = 5
    ∧ isJWTExpired tokExp5 5000 = false :=
  ⟨by rfl, by rfl, by rfl⟩

/-- C5 (amended): `isExpired` is true if structural decode fails or the
payload lacks a truthy expiry claim; with a numeric nonzero expiry claim it
is true exactly when the expiry is STRICTLY LESS than the current time at
seconds granularity — a token whose expiry equals the current second is not
reported expired. -/
theorem c5_is_expired (token : String) (nowMs : Int) :
    (decodeJWT token = none → isJWTExpired token nowMs = true)
    ∧ (∀ d, decodeJWT token = some d →
        truthyOpt (getField d.payload "exp") = false → isJWTExpired token nowMs = true)
    ∧ (∀ d e, decodeJWT token = some d → getField d.payload "exp" = some (Json.num e) →
        e ≠ 0 → (isJWTExpired token nowMs = true ↔ e < Int.fdiv nowMs 1000)) := by
  refine ⟨?_, ?_, ?_⟩
  · intro h
    simp [isJWTExpired, h]
  · intro d hd hexp
    simp [isJWTExpired, hd, hexp]
  · intro d e hd hexp hne
    have hb : (e != 0) = true := by simp [bne_iff_ne, hne]
    simp [isJWTExpired, hd, hexp, truthyOpt, truthy, hb, toNumber]

/-- C5 witness: the same token one second later is expired. -/
theorem c5_is_expired_witness :
    isJWTExpired tokExp5 6000 = true ∧ (5 : Int) < Int.fdiv 6000 1000 :=
  ⟨(c5_is_expired tokExp5 6000).2.2 ⟨Json.obj [], Json.obj [("exp", Json.num 5)], "s"⟩ 5
      (by rfl) (by rfl) (by decide) |>.mpr (by decide),
    by decide⟩

/-- C2 counterexample: a record whose `expiresAt` is the number 0 — non-null,
but JS-falsy — skips both expiry checks: at a time far past
`expiresAt - 5 minutes` the policy still reports the record valid, where the
claim demands false for every non-null `expiresAt`. -/
theorem c2_counterexample :
    getField recExpZero "expiresAt" = some (Json.num 0)
    ∧ (1700000000000 : Int) ≥ 0 - bufferTime
    ∧ isCachedTokenValid (some recExpZero) 1700000000000 = true :=
  ⟨by rfl, by decide, by rfl⟩

/-- C2 (amended): for every cached record with a token and a truthy — non-null
AND nonzero — numeric `expiresAt`: the policy returns false whenever
`now ≥ expiresAt - 300000` (5-minute buffer, inclusive boundary), and returns
true whenever `expiresAt` is strictly more than 5 minutes after `now` and the
token decodes structurally.  (A record whose `expiresAt` is the number 0 is
treated as having no expiry.) -/
theorem c2_validity_buffer (rec : Json) (now e : Int)
    (hexp : getField rec "expiresAt" = some (Json.num e)) (hne : e ≠ 0) :
    (now ≥ e - bufferTime → isCachedTokenValid (some rec) now = false)
    ∧ (now < e - bufferTime →
        ∀ t, getField rec "jwt" = some (Json.str t) → (decodeJWT t).isSome = true →
          isCachedTokenValid (some rec) now = true) := by
  have hb : (e != 0) = true := by simp [bne_iff_ne, hne]
  constructor
  · intro hge
    cases hjwt : truthyOpt (getField rec "jwt") with
    | false => simp [isCachedTokenValid, hjwt]
    | true =>
      by_cases h0 : now ≥ e
      · simp [isCachedTokenValid, hjwt, hexp, truthyOpt, truthy, hb, jsGeMinus, toNumber, h0]
      · have h1 : now ≥ e - bufferTime := hge
        simp [isCachedTokenValid, hjwt, hexp, truthyOpt, truthy, hb, jsGeMinus, toNumber,
          h0, h1]
  · intro hlt t hjwt hdec
    obtain ⟨d, hd⟩ := Option.isSome_iff_exists.mp hdec
    have htr : truthyOpt (getField rec "jwt") = true := by
      simp [hjwt, truthyOpt, truthy, bne_iff_ne, decodeJWT_ne_empty hd]
    have h0 : ¬ (now ≥ e) := by
      unfold bufferTime at hlt
      omega
    have h1 : ¬ (now ≥ e - bufferTime) := by omega
    simp [isCachedTokenValid, htr, hjwt, hexp, truthyOpt, truthy, hb, jsGeMinus, toNumber,
      h0, h1, decodeJWTVal, hd, bne_iff_ne, decodeJWT_ne_empty hd]

/-- C2 witness: a record expiring at t = 1000000 ms is invalid exactly at the
buffer boundary (now = 700000) and valid strictly before it (now = 1). -/
theorem c2_validity_buffer_witness :
    isCachedTokenValid (some recExpMillion) 700000 = false
    ∧ isCachedTokenValid (some recExpMillion) 1 = true :=
  ⟨(c2_validity_buffer recExpMillion 700000 1000000 (by rfl) (by decide)).1 (by decide),
    (c2_validity_buffer recExpMillion 1 1000000 (by rfl) (by decide)).2 (by decide)
      tokSimple (by rfl) (by rfl)⟩

/-- C10 (implicit): a cached record whose `expiresAt` is null or absent but
whose token decodes structurally is reported valid by the validity policy at
EVERY current time, even though `isJWTExpired` reports the very same token
expired (for lacking a truthy expiry claim) at every current time. -/
theorem c10_null_expiry_never_expires (rec : Json) (now nowMs : Int) (t : String)
    (d : DecodedJWT)
    (hjwt : getField rec "jwt" = some (Json.str t))
    (hexp : getField rec "expiresAt" = none ∨ getField rec "expiresAt" = some Json.null)
    (hdec : decodeJWT t = some d)
    (hnoexp : truthyOpt (getField d.payload "exp") = false) :
    isCachedTokenValid (some rec) now = true ∧ isJWTExpired t nowMs = true := by
  have htr : truthyOpt (getField rec "jwt") = true := by
    simp [hjwt, truthyOpt, truthy, bne_iff_ne, decodeJWT_ne_empty hdec]
  have hea : truthyOpt (getField rec "expiresAt") = false := by
    rcases hexp with h | h <;> simp [h, truthyOpt, truthy]
  constructor
  · rcases hexp with h | h <;>
      simp [isCachedTokenValid, htr, decodeJWTVal, hjwt, hdec, h, truthyOpt, truthy,
        jsGeMinus, bne_iff_ne, decodeJWT_ne_empty hdec]
  · simp [isJWTExpired, hdec, hnoexp]

/-- C10 witness: the record `save` produces for a no-expiry token (explicit
`null` expiry) is valid at an arbitrary time while the token itself is
reported expired. -/
theorem c10_null_expiry_never_expires_witness :
    isCachedTokenValid (some recNoExpiry) 1700000000000 = true
    ∧ isJWTExpired tokSimple 123456 = true :=
  c10_null_expiry_never_expires recNoExpiry 1700000000000 123456 tokSimple
    ⟨Json.obj [], Json.obj [], "s"⟩ (by rfl) (Or.inr (by rfl)) (by rfl) (by rfl)

/-- C8: for every record accepted by `save` (token, the three boolean
authorization flags and key, with escape-free strings), a successful
`save(record)` followed by `load()` yields a record equal to the saved one in
all fields — `jwt`, the three flags, `key`, `cachedAt` (the save time) and
`expiresAt` (derived from the token) — and `load` returns exactly what
storage parses to, fabricating nothing. -/
theorem c8_save_load_round_trip (jwt key : String) (nie ldap grp : Bool) (now : Int)
    (file : Option String) (hjwt : safeStr jwt = true) (hkey : safeStr key = true) :
    (saveTokenToCache (mkTokenData jwt nie ldap grp key) now file).1 = true
    ∧ loadTokenFromCache (saveTokenToCache (mkTokenData jwt nie ldap grp key) now file).2
        = (some (cacheDataJson (mkTokenData jwt nie ldap grp key) now),
           (saveTokenToCache (mkTokenData jwt nie ldap grp key) now file).2)
    ∧ cacheDataJson (mkTokenData jwt nie ldap grp key) now
        = Json.obj [("jwt", Json.str jwt), ("isNIEUser", Json.bool nie),
            ("isLDAPEnabled", Json.bool ldap), ("hasGroupAccess", Json.bool grp),
            ("key", Json.str key), ("cachedAt", Json.num now),
            ("expiresAt", match getTokenExpiration (some (Json.str jwt)) with
              | some e => Json.num e
              | none => Json.null)]
    ∧ (∀ s j, jsonParse s = some j → loadTokenFromCache (some s) = (some j, some s)) := by
  have hcd : cacheDataJson (mkTokenData jwt nie ldap grp key) now
      = Json.obj [("jwt", Json.str jwt), ("isNIEUser", Json.bool nie),
          ("isLDAPEnabled", Json.bool ldap), ("hasGroupAccess", Json.bool grp),
          ("key", Json.str key), ("cachedAt", Json.num now),
          ("expiresAt", match getTokenExpiration (some (Json.str jwt)) with
            | some e => Json.num e
            | none => Json.null)] := by rfl
  have hround : jsonParse (jsonStringify (cacheDataJson (mkTokenData jwt nie ldap grp key) now))
      = some (cacheDataJson (mkTokenData jwt nie ldap grp key) now) := by
    rw [hcd]
    rcases hE : getTokenExpiration (some (Json.str jwt)) with _ | e <;>
      simp only [hE] <;>
      refine jsonParse_print_obj _ _ (by rfl) hjwt ?_ <;>
      intro p hp <;>
      fin_cases hp <;>
      exact ⟨by rfl, by first | exact hkey | rfl⟩
  refine ⟨rfl, ?_, hcd, ?_⟩
  · simp [loadTokenFromCache, saveTokenToCache, hround]
  · intro s j h
    simp [loadTokenFromCache, h]

/-- C8 witness: a concrete record round-trips through the cache file. -/
theorem c8_save_load_round_trip_witness :
    safeStr "e30.e30.s" = true ∧ safeStr "K1" = true ∧
    loadTokenFromCache
        (saveTokenToCache (mkTokenData "e30.e30.s" true false true "K1") 1700000000000 none).2
      = (some (cacheDataJson (mkTokenData "e30.e30.s" true false true "K1") 1700000000000),
         (saveTokenToCache (mkTokenData "e30.e30.s" true false true "K1") 1700000000000 none).2) :=
  ⟨by decide, by decide,
    (c8_save_load_round_trip "e30.e30.s" "K1" true false true 1700000000000 none
      (by decide) (by decide)).2.1⟩


end N8nDesktop
